import Mathlib

/-!
Shallow embedding of the scheduling core of the cramdown repository
(`src/src-tauri/src/note.rs`, with the structurally duplicated variants in
`src/src-tauri/src/card.rs` noted where they differ), together with theorems
settling the specification claims about it.

Modelling conventions:
* Rust `String` is Lean `String` (a packed `List Char`); the field codec is
  defined on `List Char` with `String` wrappers named after the source
  functions.
* `chrono::DateTime<Utc>` is modelled as a whole number of seconds since the
  Unix epoch (`Int`).  chrono timestamps are bounded: the representable range
  is `[TMIN_SECS, TMAX_SECS]` (derived below from chrono's calendar limits
  `-262144-01-01T00:00:00` and `+262143-12-31T23:59:59`), and
  `checked_add_signed` returns `none` outside it.  All durations occurring in
  the source are whole seconds, so second granularity is exact.
* `score_card` evaluates `Utc::now()` once, in the initializer of its `Review`
  value (note.rs line 104).  That wall-clock read is made explicit as an extra
  input `wall` of the Lean function; every other part of the function is
  translated directly from the source.
* `HashMap<String, String>` is modelled as an association list; `insert` has
  replace-or-append semantics like `HashMap::insert`, and iteration order (for
  `get_note_md`) is the list order, an arbitrary but fixed order as in Rust.
-/

/-- `CardState` from note.rs (the file defining `score_card`): `New`,
`Graduated`, `Relearning`.  (card.rs declares a different, unused variant set.) -/
inductive CardState where
  | New
  | Graduated
  | Relearning
deriving DecidableEq

/-- `ReviewScore` from note.rs. -/
inductive ReviewScore where
  | Again
  | Hard
  | Good
  | Easy
deriving DecidableEq

/-- `Card` from note.rs, fields in declaration order.  `u32` fields are `Nat`
(no `u32` arithmetic in the source can overflow or underflow: the only
arithmetic is `steps -= 1` under the guard `steps > 1`). -/
structure Card where
  note_id : String
  deck_id : String
  card_num : Nat
  interval : Nat
  due : Option Int
  ease : Nat
  state : CardState
  steps : Nat
  template : String
deriving DecidableEq

/-- `Review` from note.rs, fields in declaration order. -/
structure Review where
  note_id : String
  card_num : Nat
  due : Int
  interval : Nat
  ease : Nat
  last_interval : Nat
  state : CardState
  score : ReviewScore
  steps : Nat
deriving DecidableEq

/-- `Note` from note.rs. -/
structure Note where
  note_id : String
  deck_id : String
  template : String
deriving DecidableEq

/-- `impl From<Card> for Note` from note.rs. -/
def noteFromCard (card : Card) : Note :=
  { note_id := card.note_id, deck_id := card.deck_id, template := card.template }

def EASY_INTERVAL : Nat := 4
def GRADUATION_INTERVAL : Nat := 1
def AGAIN_STEPS : Nat := 2

/-- Days from the Unix epoch of a proleptic-Gregorian civil date (the standard
`days_from_civil` algorithm, which is what chrono's calendar implements).
Used only to pin down chrono's representable timestamp range. -/
def daysFromCivil (y : Int) (m : Nat) (d : Nat) : Int :=
  let y2 : Int := if m ≤ 2 then y - 1 else y
  let era : Int := Int.fdiv y2 400
  let yoe : Int := y2 - era * 400
  let doy : Int := Int.fdiv (153 * ((m : Int) + (if m > 2 then -3 else 9)) + 2) 5 + (d : Int) - 1
  let doe : Int := yoe * 365 + Int.fdiv yoe 4 - Int.fdiv yoe 100 + doy
  era * 146097 + doe - 719468

/-- Smallest chrono timestamp, in seconds: `-262144-01-01T00:00:00`. -/
def TMIN_SECS : Int := daysFromCivil (-262144) 1 1 * 86400

/-- Largest chrono timestamp, in whole seconds: `+262143-12-31T23:59:59`. -/
def TMAX_SECS : Int := daysFromCivil 262143 12 31 * 86400 + 86399

/-- `chrono::Duration::days n` in seconds. -/
def durDays (n : Nat) : Int := (n : Int) * 86400

/-- `chrono::Duration::minutes n` in seconds. -/
def durMinutes (n : Nat) : Int := (n : Int) * 60

/-- `DateTime::checked_add_signed`: the sum, or `none` when the result leaves
chrono's representable range. -/
def checkedAddSigned (t : Int) (d : Int) : Option Int :=
  if TMIN_SECS ≤ t + d ∧ t + d ≤ TMAX_SECS then some (t + d) else none

/-- `score_card` from note.rs lines 100-157, translated clause by clause.
`wall` is the value of the `Utc::now()` call in the `Review` initializer
(line 104); it remains the `due` value wherever the source does not overwrite
it (the non-`New` pass-through arm, and any `checked_add_signed` overflow). -/
def score_card (card : Card) (time : Int) (score : ReviewScore) (wall : Int) : Review :=
  let review : Review :=
    { note_id := card.note_id
      card_num := card.card_num
      due := wall
      interval := card.interval
      ease := card.ease
      last_interval := card.interval
      state := CardState.New
      score := score
      steps := card.steps }
  match card.state with
  | CardState.New =>
    match score with
    | ReviewScore.Easy =>
      let r := { review with state := CardState.Graduated, interval := EASY_INTERVAL, steps := 0 }
      match checkedAddSigned time (durDays EASY_INTERVAL) with
      | some due => { r with due := due }
      | none => r
    | ReviewScore.Again =>
      let r := { review with steps := AGAIN_STEPS }
      match checkedAddSigned time (durMinutes 1) with
      | some due => { r with due := due }
      | none => r
    | ReviewScore.Hard =>
      let r := { review with steps := AGAIN_STEPS }
      match checkedAddSigned time (durMinutes 1) with
      | some due => { r with due := due }
      | none => r
    | ReviewScore.Good =>
      if card.steps ≤ 1 then
        let r := { review with state := CardState.Graduated, steps := 0 }
        match checkedAddSigned time (durDays GRADUATION_INTERVAL) with
        | some due => { r with due := due }
        | none => r
      else
        let r :=
          match checkedAddSigned time (durMinutes 1) with
          | some due => { review with due := due }
          | none => review
        { r with steps := review.steps - 1 }
  | _ => review

/-- Rust `str::split("\n")` on the character list of a string: the pieces
between newline characters, including empty pieces. -/
def splitNl : List Char → List (List Char)
  | [] => [[]]
  | c :: cs =>
    if c = '\n' then [] :: splitNl cs
    else
      match splitNl cs with
      | [] => [[c]]
      | l :: ls => (c :: l) :: ls

/-- Inverse of `splitNl`: interleave the pieces with newline characters. -/
def joinNl : List (List Char) → List Char
  | [] => []
  | [l] => l
  | l :: ls => l ++ '\n' :: joinNl ls

/-- The capture of `Regex::new("# (.*)").captures(line)`: the regex is
unanchored, so it matches at the leftmost occurrence of `'#'` followed by a
space anywhere in the line, and group 1 captures the remainder of the line. -/
def headingCapture : List Char → Option (List Char)
  | [] => none
  | '#' :: ' ' :: rest => some rest
  | _ :: rest => headingCapture rest

/-- The Unicode `White_Space` property, the exact character class stripped by
Rust `str::trim` (which trims matches of `char::is_whitespace`): U+0009-U+000D,
U+0020, U+0085, U+00A0, U+1680, U+2000-U+200A, U+2028, U+2029, U+202F, U+205F
and U+3000. -/
def isWsC (c : Char) : Bool :=
  (0x09 ≤ c.toNat && c.toNat ≤ 0x0D) || c.toNat = 0x20 || c.toNat = 0x85 ||
  c.toNat = 0xA0 || c.toNat = 0x1680 || (0x2000 ≤ c.toNat && c.toNat ≤ 0x200A) ||
  c.toNat = 0x2028 || c.toNat = 0x2029 || c.toNat = 0x202F || c.toNat = 0x205F ||
  c.toNat = 0x3000

/-- Rust `str::trim` on a character list. -/
def trimChars (l : List Char) : List Char :=
  ((l.dropWhile isWsC).reverse.dropWhile isWsC).reverse

/-- `HashMap::insert` on an association list: replace the value when the key is
present, otherwise append the binding. -/
def insertKV : List (List Char × List Char) → List Char → List Char → List (List Char × List Char)
  | [], k, v => [(k, v)]
  | (k0, v0) :: rest, k, v =>
    if k0 = k then (k, v) :: rest else (k0, v0) :: insertKV rest k v

/-- The loop state of `parse_note_into_fields`: the accumulated map, the
current field name (if a heading has been seen) and the accumulated body. -/
structure PState where
  fields : List (List Char × List Char)
  currentField : Option (List Char)
  currentStr : List Char
deriving DecidableEq

/-- One iteration of the `for line in md.split("\n")` loop of
`parse_note_into_fields` (note.rs lines 335-353). -/
def stepLine (s : PState) (line : List Char) : PState :=
  match headingCapture line with
  | some h =>
    match s.currentField with
    | some f =>
      { fields := insertKV s.fields f (trimChars s.currentStr)
        currentField := some h
        currentStr := [] }
    | none => { s with currentField := some h, currentStr := [] }
  | none =>
    if s.currentStr = [] then { s with currentStr := line }
    else { s with currentStr := s.currentStr ++ '\n' :: line }

/-- The whole loop of `parse_note_into_fields`. -/
def runLines (s : PState) (ls : List (List Char)) : PState :=
  ls.foldl stepLine s

/-- The final flush after the loop (note.rs lines 355-360). -/
def finishP (s : PState) : List (List Char × List Char) :=
  match s.currentField with
  | some f => insertKV s.fields f (trimChars s.currentStr)
  | none => s.fields

/-- `parse_note_into_fields` on a character list. -/
def parseFieldsCore (md : List Char) : List (List Char × List Char) :=
  finishP (runLines { fields := [], currentField := none, currentStr := [] } (splitNl md))

/-- `parse_note_into_fields` from note.rs lines 329-363 (card.rs lines 58-92
are a verbatim copy).  The resulting `HashMap` is represented as the
association list of its bindings in insertion order. -/
def parse_note_into_fields (md : String) : List (String × String) :=
  (parseFieldsCore md.data).map (fun kv => (String.mk kv.1, String.mk kv.2))

/-- One serialized field: `format!("# {}\n{}\n", field, value)`. -/
def serializeEntry (k v : List Char) : List Char :=
  '#' :: ' ' :: (k ++ '\n' :: (v ++ ['\n']))

/-- The fold of `get_note_md`, on character lists. -/
def serializeCore (fs : List (List Char × List Char)) : List Char :=
  fs.foldl (fun md kv => md ++ serializeEntry kv.1 kv.2) []

/-- `get_note_md` from note.rs lines 407-413: emit `"# <name>\n<body>\n"` per
field, in iteration order (here: the order of the association list). -/
def get_note_md (fields : List (String × String)) : String :=
  String.mk (serializeCore (fields.map (fun kv => (kv.1.data, kv.2.data))))

/-- Association-list lookup, mirroring `HashMap::get` on the parse result. -/
def lookupS : List (String × String) → String → Option String
  | [], _ => none
  | (k0, v0) :: rest, k => if k0 = k then some v0 else lookupS rest k

/-- JSON string-character escaping as performed by `serde_json` for the
character repertoire occurring in this development. -/
def escChar (c : Char) : List Char :=
  if c = '"' then ['\\', '"']
  else if c = '\\' then ['\\', '\\']
  else if c = '\n' then ['\\', 'n']
  else if c = '\t' then ['\\', 't']
  else if c = '\r' then ['\\', 'r']
  else [c]

/-- A JSON string literal for `s`. -/
def jsonStr (s : String) : String :=
  "\"" ++ String.mk (s.data.foldr (fun c acc => escChar c ++ acc) []) ++ "\""

/-- Serialization of an `Option<DateTime<Utc>>` field: `null`, or a timestamp
string.  (serde_json renders a `DateTime` as an RFC 3339 string; the model
renders the underlying second count, an injective placeholder for it.) -/
def jsonOptDt : Option Int → String
  | none => "null"
  | some t => "\"" ++ toString t ++ "\""

/-- Serialization of a `CardState` value (`serde` renders the variant name). -/
def cardStateJson : CardState → String
  | CardState.New => "\"New\""
  | CardState.Graduated => "\"Graduated\""
  | CardState.Relearning => "\"Relearning\""

/-- Serialization of a `ReviewScore` value. -/
def scoreJson : ReviewScore → String
  | ReviewScore.Again => "\"Again\""
  | ReviewScore.Hard => "\"Hard\""
  | ReviewScore.Good => "\"Good\""
  | ReviewScore.Easy => "\"Easy\""

/-- `serde_json::to_vec(&card)`: the JSON object with the `Card` fields in
declaration order, as written by `review_card`. -/
def serde_json_card (card : Card) : String :=
  "\x7b\"note_id\":" ++ jsonStr card.note_id ++
  ",\"deck_id\":" ++ jsonStr card.deck_id ++
  ",\"card_num\":" ++ toString card.card_num ++
  ",\"interval\":" ++ toString card.interval ++
  ",\"due\":" ++ jsonOptDt card.due ++
  ",\"ease\":" ++ toString card.ease ++
  ",\"state\":" ++ cardStateJson card.state ++
  ",\"steps\":" ++ toString card.steps ++
  ",\"template\":" ++ jsonStr card.template ++ "\x7d"

/-- `serde_json::to_vec(&review)` for a `Review` value, with the fields in
declaration order; what C2 says `review_card` writes. -/
def serde_json_review (r : Review) : String :=
  "\x7b\"note_id\":" ++ jsonStr r.note_id ++
  ",\"card_num\":" ++ toString r.card_num ++
  ",\"due\":\"" ++ toString r.due ++ "\"" ++
  ",\"interval\":" ++ toString r.interval ++
  ",\"ease\":" ++ toString r.ease ++
  ",\"last_interval\":" ++ toString r.last_interval ++
  ",\"state\":" ++ cardStateJson r.state ++
  ",\"score\":" ++ scoreJson r.score ++
  ",\"steps\":" ++ toString r.steps ++ "\x7d"

/-- Modelled from the spec: `deck::get_deck_path` lives in deck.rs, which is
not among the provided sources.  Spec section 6 maps a deck 1:1 to a storage
directory, so the deck path is the single component named by the deck id.
Paths are modelled as component lists. -/
def get_deck_path (deck_id : String) : List String := [deck_id]

/-- `get_note_path` from note.rs lines 286-288:
`<deck>/<note_id>_<template>.md`. -/
def get_note_path (note : Note) : List String :=
  get_deck_path note.deck_id ++ [note.note_id ++ "_" ++ note.template ++ ".md"]

/-- `get_review_path` from note.rs lines 290-294:
`<deck>/reviews/<note_id>.jsonl`. -/
def get_review_path (note : Note) : List String :=
  get_deck_path note.deck_id ++ ["reviews", note.note_id ++ ".jsonl"]

/-- A single append performed through
`OpenOptions::new().append(true).create(true)`: the target path and the bytes
written. -/
structure AppendOp where
  path : List String
  bytes : String
deriving DecidableEq

/-- `review_card` from note.rs lines 483-495: opens
`get_review_path(card.into())` in append-create mode and writes
`serde_json::to_vec(&card)` — the serialized input `Card`; the `_score`
argument is unused and no `Review` is computed.  (The duplicate in card.rs
lines 112-124 differs only in using the extension `.json` and `write` instead
of `write_all`; it too serializes the input card and ignores the score.) -/
def review_card (card : Card) (_score : ReviewScore) : AppendOp :=
  { path := get_review_path (noteFromCard card), bytes := serde_json_card card }

/-- The content of the per-note review log after one `review_card` call, as a
function of the prior content (`none` when the file did not exist: the
append-create mode creates it empty and then appends). -/
def fileAfterReview (prior : Option String) (card : Card) (score : ReviewScore) : String :=
  prior.getD "" ++ (review_card card score).bytes

/-- Outcome of the underlying `fs::write` call. -/
inductive WriteOutcome where
  | ok
  | ioError
deriving DecidableEq

/-- `update_note` from note.rs lines 430-436: `fs::write` the serialized
fields, then return the empty string in the `Ok(..)` arm and the empty string
in the `Err(..)` arm alike. -/
def update_note (_note : Note) (_fields : List (String × String)) (writeResult : WriteOutcome) : String :=
  match writeResult with
  | WriteOutcome.ok => ""
  | WriteOutcome.ioError => ""

/-- The path and bytes `update_note` hands to `fs::write`. -/
def update_note_write (note : Note) (fields : List (String × String)) : AppendOp :=
  { path := get_note_path note, bytes := get_note_md fields }

/-- The fresh note id computed by `create_note` (note.rs lines 417-422) from
the wall-clock Unix seconds. -/
def create_note_note_id (note : Note) (nowSecs : Nat) : String :=
  toString nowSecs ++ "_" ++ note.template

/-- `create_note` from note.rs lines 415-428: computes a fresh note id, calls
`fs::write`, and returns the empty string in both the `Ok(..)` and the
`Err(..)` arm. -/
def create_note (_note : Note) (_fields : List (String × String)) (_nowSecs : Nat) (writeResult : WriteOutcome) : String :=
  match writeResult with
  | WriteOutcome.ok => ""
  | WriteOutcome.ioError => ""

/-- A directory entry as consumed by `get_due_cards_from_paths`: its file name
and whether `file_type()` reports a regular file.  (Entries whose `ReadDir`
item or `file_type()` errors are dropped by the source; they are modelled as
absent from the list.) -/
structure DirEntry where
  name : String
  isFile : Bool
deriving DecidableEq

/-- Does the character list contain the two-character substring `md`? -/
def containsMdSub : List Char → Bool
  | 'm' :: 'd' :: _ => true
  | _ :: t => containsMdSub t
  | [] => false

/-- Can the tail pattern `(.*).md` of the note-filename regex match somewhere
in `l`?  (`.` is the unescaped any-character: the pattern needs one character
followed by `md`.) -/
def tailOk (l : List Char) : Bool :=
  match l with
  | _ :: t => containsMdSub t
  | [] => false

/-- Backtracking for group 1 of `Regex::new("([^_]*)?_?(.*).md")` with the
leftmost-first semantics of the `regex` crate: starting from the maximal
non-underscore prefix (held reversed in `racc`), shrink it until the rest of
the pattern (an optional underscore, then `(.*).md`) can match the remaining
input; the capture of group 1 is the retained prefix. -/
def regexG1 : List Char → List Char → Option (List Char)
  | [], rest =>
    let withU : Bool := match rest with | '_' :: r2 => tailOk r2 | _ => false
    if withU || tailOk rest then some [] else none
  | c :: racc2, rest =>
    let withU : Bool := match rest with | '_' :: r2 => tailOk r2 | _ => false
    if withU || tailOk rest then some (c :: racc2).reverse
    else regexG1 racc2 (c :: rest)

/-- The `note_id` capture `captures.get(1)` of the note-filename regex applied
to a file name, or `none` when the regex does not match at all. -/
def noteIdOfFilename (name : String) : Option String :=
  (regexG1 (name.data.takeWhile (fun c => c ≠ '_')).reverse
      (name.data.dropWhile (fun c => c ≠ '_'))).map String.mk

/-- The `Card` literal constructed by `get_due_cards_from_paths` (note.rs
lines 515-525) for a matched file: every scheduling field is a hardcoded
default. -/
def mkDueCard (deck : String) (note_id : String) : Card :=
  { note_id := note_id
    deck_id := deck
    card_num := 1
    interval := 100
    due := none
    ease := 200
    state := CardState.New
    steps := 0
    template := "basic" }

/-- The due filter of `get_due_cards_from_paths` (note.rs lines 529-532):
keep a card when it has no due time, or its due time is before the current
wall-clock time (`Utc::now()`, passed here as `now`). -/
def dueFilter (now : Int) (c : Card) : Bool :=
  match c.due with
  | none => true
  | some due => decide (due < now)

/-- `get_due_cards_from_paths` from note.rs lines 497-537: keep regular files,
match each file name against the note-filename regex, build a default `Card`
per match, and apply the due filter. -/
def get_due_cards_from_paths (deck : String) (paths : List DirEntry) (now : Int) : List Card :=
  (((paths.filter (fun e => e.isFile)).filterMap
      (fun e => (noteIdOfFilename e.name).map (mkDueCard deck)))).filter (dueFilter now)

/-- The accumulation of body lines performed by the non-heading arm of the
parser loop, abstracted from `stepLine`. -/
def accumB (cur : List Char) (ls : List (List Char)) : List Char :=
  ls.foldl (fun c l => if c = [] then l else c ++ '\n' :: l) cur

/-- The line list that serializing a field list produces, short of the final
empty line: one heading line per field followed by the lines of its body. -/
def entriesLines : List (List Char × List Char) → List (List Char)
  | [] => []
  | (k, v) :: es => ('#' :: ' ' :: k) :: (splitNl v ++ entriesLines es)

/-- A card in the `Graduated` state, exercising the pass-through arm. -/
def cardG : Card :=
  { note_id := "n", deck_id := "d", card_num := 1, interval := 7, due := some 3,
    ease := 250, state := CardState.Graduated, steps := 5, template := "basic" }

/-- The `Default::default()` card of note.rs lines 80-94 (with `due := none`). -/
def cardNew : Card :=
  { note_id := "test", deck_id := "test", card_num := 1, interval := 1, due := none,
    ease := 250, state := CardState.New, steps := 0, template := "basic" }

/-- A `New` card with two remaining learning steps. -/
def cardSteps2 : Card :=
  { note_id := "test", deck_id := "test", card_num := 1, interval := 1, due := none,
    ease := 250, state := CardState.New, steps := 2, template := "basic" }

/-- A concrete card for the review-log theorems. -/
def cardEx : Card :=
  { note_id := "n1", deck_id := "d1", card_num := 1, interval := 1, due := none,
    ease := 250, state := CardState.New, steps := 0, template := "basic" }

/-- A concrete note for the note-write theorems. -/
def noteEx : Note := { note_id := "n1", deck_id := "d1", template := "basic" }

/-- The spec's concrete field mapping. -/
def fieldsEx : List (String × String) := [("Front", "2+2?"), ("Back", "4")]

theorem tmax_secs_value : TMAX_SECS = 8210298412799 := by decide

theorem tmin_secs_value : TMIN_SECS = -8334632851200 := by decide

theorem checked_add_in_range (t d : Int) (h1 : TMIN_SECS ≤ t) (h2 : 0 ≤ d)
    (h3 : t + d ≤ TMAX_SECS) : checkedAddSigned t d = some (t + d) := by
  unfold checkedAddSigned
  rw [if_pos]
  exact ⟨by omega, h3⟩

/-- C1: for every Card whose state is not New, `score_card` does NOT pass the
state through: the returned Review's state is `New` (the initializer default)
although the card's state is `Graduated`; the claim that state equals the
pre-review state is false. -/
theorem c1_counterexample :
    cardG.state = CardState.Graduated ∧
    (score_card cardG 5 ReviewScore.Good 42).state = CardState.New ∧
    (score_card cardG 5 ReviewScore.Good 42).state ≠ cardG.state := by
  decide

/-- C1 (amended): for every Card whose state is not New, `score_card` returns
a Review whose interval and steps (and ease and identity fields) equal the
card's pre-review values, whose state is the initializer default `New`
regardless of the card's state, and whose due is the wall-clock time read at
entry. -/
theorem c1_pass_through_amended (card : Card) (time : Int) (score : ReviewScore) (wall : Int)
    (h : card.state ≠ CardState.New) :
    score_card card time score wall =
      { note_id := card.note_id, card_num := card.card_num, due := wall,
        interval := card.interval, ease := card.ease, last_interval := card.interval,
        state := CardState.New, score := score, steps := card.steps } := by
  cases hc : card.state
  · exact absurd hc h
  · simp [score_card, hc]
  · simp [score_card, hc]

/-- C1 witness: the amended pass-through equation at a concrete Graduated
card. -/
theorem c1_witness :
    score_card cardG 5 ReviewScore.Good 42 =
      { note_id := "n", card_num := 1, due := 42, interval := 7, ease := 250,
        last_interval := 7, state := CardState.New, score := ReviewScore.Good,
        steps := 5 } := by
  have h := c1_pass_through_amended cardG 5 ReviewScore.Good 42 (by decide)
  exact h.trans (by decide)

/-- C3: `score_card` is not a function of `(card, time, score)` alone — the
`Review` initializer reads `Utc::now()`, and for a non-New card that value is
returned as `due`, so two calls with identical arguments can differ. -/
theorem c3_counterexample :
    score_card cardG 5 ReviewScore.Good 0 ≠ score_card cardG 5 ReviewScore.Good 1 := by
  decide

/-- C3 (amended): for a card in state New, when the due-time addition stays in
chrono's representable range, the internally read wall clock does not
influence the result: `score_card` is deterministic in `(card, time, score)`. -/
theorem c3_deterministic_amended (card : Card) (time : Int) (score : ReviewScore) (w1 w2 : Int)
    (hs : card.state = CardState.New) (h1 : TMIN_SECS ≤ time)
    (h2 : time + 345600 ≤ TMAX_SECS) :
    score_card card time score w1 = score_card card time score w2 := by
  have e1 : durDays EASY_INTERVAL = 345600 := by decide
  have e2 : durDays GRADUATION_INTERVAL = 86400 := by decide
  have e3 : durMinutes 1 = 60 := by decide
  have hE : checkedAddSigned time (durDays EASY_INTERVAL) = some (time + durDays EASY_INTERVAL) := by
    rw [e1]; exact checked_add_in_range time 345600 h1 (by decide) h2
  have hG : checkedAddSigned time (durDays GRADUATION_INTERVAL) = some (time + durDays GRADUATION_INTERVAL) := by
    rw [e2]; exact checked_add_in_range time 86400 h1 (by decide) (by omega)
  have hM : checkedAddSigned time (durMinutes 1) = some (time + durMinutes 1) := by
    rw [e3]; exact checked_add_in_range time 60 h1 (by decide) (by omega)
  cases score <;> simp [score_card, hs, hE, hG, hM]

/-- C3 witness: determinism at a concrete New card and time. -/
theorem c3_witness :
    score_card cardNew 0 ReviewScore.Good 1 = score_card cardNew 0 ReviewScore.Good 2 :=
  c3_deterministic_amended cardNew 0 ReviewScore.Good 1 2 rfl (by decide) (by decide)

/-- C4: the Easy-from-New equation fails at the edge of chrono's range: at
`time = TMAX_SECS` the addition of 4 days overflows, and the returned due is
the wall-clock default (here 0), not `now + 4 days`. -/
theorem c4_counterexample :
    cardNew.state = CardState.New ∧
    (score_card cardNew TMAX_SECS ReviewScore.Easy 0).due = 0 ∧
    (score_card cardNew TMAX_SECS ReviewScore.Easy 0).due ≠ TMAX_SECS + 345600 := by
  decide

/-- C4 (amended): for every Card in state New scored Easy at a time `now` such
that `now + 4 days` stays in chrono's representable range, `score_card`
returns state Graduated, interval exactly 4, due `now + 4 days`, steps 0, ease
unchanged, and `last_interval` equal to the pre-review interval. -/
theorem c4_new_easy_amended (card : Card) (time wall : Int)
    (hs : card.state = CardState.New) (h1 : TMIN_SECS ≤ time)
    (h2 : time + 345600 ≤ TMAX_SECS) :
    score_card card time ReviewScore.Easy wall =
      { note_id := card.note_id, card_num := card.card_num, due := time + 345600,
        interval := 4, ease := card.ease, last_interval := card.interval,
        state := CardState.Graduated, score := ReviewScore.Easy, steps := 0 } := by
  have e1 : durDays 4 = 345600 := by decide
  have hE : checkedAddSigned time (durDays 4) = some (time + 345600) := by
    rw [e1]; exact checked_add_in_range time 345600 h1 (by decide) h2
  simp [score_card, hs, EASY_INTERVAL, hE]

/-- C4 witness: the spec's concrete scenario — the default card (interval 1,
ease 250, steps 0, state New) scored Easy at time 0. -/
theorem c4_witness :
    score_card cardNew 0 ReviewScore.Easy 99 =
      { note_id := "test", card_num := 1, due := 345600, interval := 4, ease := 250,
        last_interval := 1, state := CardState.Graduated, score := ReviewScore.Easy,
        steps := 0 } := by
  have h := c4_new_easy_amended cardNew 0 99 rfl (by decide) (by decide)
  exact h.trans (by decide)

/-- C5: the Good-from-New graduation equation likewise fails on overflow: at
`time = TMAX_SECS` the one-day addition overflows and due is the wall-clock
default. -/
theorem c5_counterexample :
    cardNew.state = CardState.New ∧ cardNew.steps ≤ 1 ∧
    (score_card cardNew TMAX_SECS ReviewScore.Good 0).due = 0 ∧
    (score_card cardNew TMAX_SECS ReviewScore.Good 0).due ≠ TMAX_SECS + 86400 := by
  decide

/-- C5 (amended): for every Card in state New scored Good at a time `now` with
`now + 1 day` in chrono's range: with steps ≤ 1 the card graduates (state
Graduated, steps 0, due `now + 1 day`); with steps > 1 the state stays New,
steps decrease by one, due is `now + 1 minute`; the interval is unchanged in
both cases. -/
theorem c5_new_good_amended (card : Card) (time wall : Int)
    (hs : card.state = CardState.New) (h1 : TMIN_SECS ≤ time)
    (h2 : time + 86400 ≤ TMAX_SECS) :
    (card.steps ≤ 1 →
      score_card card time ReviewScore.Good wall =
        { note_id := card.note_id, card_num := card.card_num, due := time + 86400,
          interval := card.interval, ease := card.ease, last_interval := card.interval,
          state := CardState.Graduated, score := ReviewScore.Good, steps := 0 }) ∧
    (1 < card.steps →
      score_card card time ReviewScore.Good wall =
        { note_id := card.note_id, card_num := card.card_num, due := time + 60,
          interval := card.interval, ease := card.ease, last_interval := card.interval,
          state := CardState.New, score := ReviewScore.Good,
          steps := card.steps - 1 }) := by
  have e2 : durDays GRADUATION_INTERVAL = 86400 := by decide
  have e3 : durMinutes 1 = 60 := by decide
  have hG : checkedAddSigned time (durDays GRADUATION_INTERVAL) = some (time + 86400) := by
    rw [e2]; exact checked_add_in_range time 86400 h1 (by decide) h2
  have hM : checkedAddSigned time (durMinutes 1) = some (time + 60) := by
    rw [e3]; exact checked_add_in_range time 60 h1 (by decide) (by omega)
  constructor
  · intro hle
    simp [score_card, hs, hG, hM, hle]
  · intro hgt
    have hnle : ¬ card.steps ≤ 1 := by omega
    simp [score_card, hs, hG, hM, hnle]

/-- C5 witness: both Good branches at concrete New cards (steps 0 and
steps 2) at time 0. -/
theorem c5_witness :
    score_card cardNew 0 ReviewScore.Good 7 =
      { note_id := "test", card_num := 1, due := 86400, interval := 1, ease := 250,
        last_interval := 1, state := CardState.Graduated, score := ReviewScore.Good,
        steps := 0 } ∧
    score_card cardSteps2 0 ReviewScore.Good 7 =
      { note_id := "test", card_num := 1, due := 60, interval := 1, ease := 250,
        last_interval := 1, state := CardState.New, score := ReviewScore.Good,
        steps := 1 } := by
  constructor
  · have h := (c5_new_good_amended cardNew 0 7 rfl (by decide) (by decide)).1 (by decide)
    exact h.trans (by decide)
  · have h := (c5_new_good_amended cardSteps2 0 7 rfl (by decide) (by decide)).2 (by decide)
    exact h.trans (by decide)

/-- C9: in every state and for every score, `score_card` copies the ease
factor and the identity fields (`note_id`, `card_num`) from the card
unchanged. -/
theorem c9_frame (card : Card) (time : Int) (score : ReviewScore) (wall : Int) :
    (score_card card time score wall).ease = card.ease ∧
    (score_card card time score wall).note_id = card.note_id ∧
    (score_card card time score wall).card_num = card.card_num := by
  cases hs : card.state <;> cases score <;>
    simp only [score_card, hs] <;> (repeat' split) <;> simp

/-- C10: the record persisted by `review_card` does not depend on the score —
the function serializes the input card alone, so any two scores produce the
same append (same path, byte-identical content). -/
theorem c10_score_independent (card : Card) (s1 s2 : ReviewScore) :
    review_card card s1 = review_card card s2 ∧
    (review_card card s1).bytes = serde_json_card card :=
  ⟨rfl, rfl⟩

/-- C2: `review_card` does not serialize the Review produced by scheduling —
the bytes it appends are the serialization of the input `Card`, which differs
from the serialization of the `Review` that `score_card` yields for that card
(the claim as stated is false). -/
theorem c2_counterexample :
    (review_card cardEx ReviewScore.Easy).bytes = serde_json_card cardEx ∧
    serde_json_card cardEx ≠ serde_json_review (score_card cardEx 0 ReviewScore.Easy 0) ∧
    (review_card cardEx ReviewScore.Easy).bytes ≠
      serde_json_review (score_card cardEx 0 ReviewScore.Easy 0) :=
  ⟨rfl, by decide, by decide⟩

/-- C2 (amended): for every card and score, `review_card` appends — at the
deterministic path `<deck_id>/reviews/<note_id>.jsonl` derived from
`(deck_id, note_id)`, creating the log if absent — the JSON serialization of
the input Card (not of a scheduled Review; no separator is written), and the
prior log content is preserved as a prefix: nothing is rewritten or
truncated. -/
theorem c2_append_amended (prior : Option String) (card : Card) (score : ReviewScore) :
    (review_card card score).path = [card.deck_id, "reviews", card.note_id ++ ".jsonl"] ∧
    fileAfterReview prior card score = prior.getD "" ++ serde_json_card card ∧
    (prior.getD "").data <+: (fileAfterReview prior card score).data ∧
    fileAfterReview none card score = serde_json_card card := by
  refine ⟨rfl, rfl, ?_, ?_⟩
  · show (prior.getD "").data <+: ((prior.getD "" : String) ++ serde_json_card card).data
    rw [String.data_append]
    exact List.prefix_append _ _
  · simp only [fileAfterReview, review_card, Option.getD_none]
    apply String.ext
    rw [String.data_append]
    have h0 : ("" : String).data = ([] : List Char) := rfl
    rw [h0]
    exact List.nil_append _

/-- C8: the claimed IoError surfacing does not happen — `update_note` and
`create_note` return the empty string in the `Err` arm exactly as in the `Ok`
arm, so a filesystem write failure is silently swallowed (the code contradicts
the documented contract; the sibling operations `read_note`, `list_notes` and
`review_card` do surface their errors). -/
theorem c8_write_failure_swallowed :
    update_note noteEx fieldsEx WriteOutcome.ioError = update_note noteEx fieldsEx WriteOutcome.ok ∧
    update_note noteEx fieldsEx WriteOutcome.ioError = "" ∧
    create_note noteEx fieldsEx 1700000000 WriteOutcome.ioError =
      create_note noteEx fieldsEx 1700000000 WriteOutcome.ok ∧
    create_note noteEx fieldsEx 1700000000 WriteOutcome.ioError = "" :=
  ⟨rfl, rfl, rfl, rfl⟩

/-- C7: every card produced by the due-card enumeration carries the hardcoded
defaults (`card_num` 1, `due` none, `ease` 200, `interval` 100, state `New`,
`steps` 0), and the due filter keeps a card exactly when its due is absent or
earlier than the current time. -/
theorem c7_due_defaults :
    (∀ (deck : String) (entries : List DirEntry) (now : Int) (c : Card),
        c ∈ get_due_cards_from_paths deck entries now →
        c.card_num = 1 ∧ c.due = none ∧ c.ease = 200 ∧ c.interval = 100 ∧
          c.state = CardState.New ∧ c.steps = 0) ∧
    (∀ (now : Int) (c : Card),
        dueFilter now c = true ↔ (c.due = none ∨ ∃ d, c.due = some d ∧ d < now)) := by
  constructor
  · intro deck entries now c hc
    simp only [get_due_cards_from_paths, List.mem_filter, List.mem_filterMap,
      Option.map_eq_some'] at hc
    obtain ⟨⟨e, _, nid, _, hcard⟩, _⟩ := hc
    subst hcard
    simp [mkDueCard]
  · intro now c
    cases hd : c.due <;> simp [dueFilter, hd]

theorem splitNl_ne_nil (l : List Char) : splitNl l ≠ [] := by
  induction l with
  | nil => simp [splitNl]
  | cons c cs ih =>
    unfold splitNl
    split
    · simp
    · split <;> simp

theorem splitNl_dest (cs : List Char) : ∃ l ls, splitNl cs = l :: ls := by
  cases h : splitNl cs with
  | nil => exact absurd h (splitNl_ne_nil cs)
  | cons l ls => exact ⟨l, ls, rfl⟩

theorem splitNl_cons_nl (cs : List Char) : splitNl ('\n' :: cs) = [] :: splitNl cs := rfl

theorem splitNl_cons_of_ne (c : Char) (cs l : List Char) (ls : List (List Char))
    (hc : c ≠ '\n') (h : splitNl cs = l :: ls) :
    splitNl (c :: cs) = (c :: l) :: ls := by
  simp only [splitNl, if_neg hc, h]

theorem splitNl_append (a b : List Char) :
    splitNl (a ++ '\n' :: b) = splitNl a ++ splitNl b := by
  induction a with
  | nil =>
    rw [List.nil_append, splitNl_cons_nl]
    rfl
  | cons c cs ih =>
    by_cases hc : c = '\n'
    · subst hc
      rw [List.cons_append, splitNl_cons_nl, splitNl_cons_nl, ih, List.cons_append]
    · obtain ⟨l, ls, h⟩ := splitNl_dest cs
      have h2 : splitNl (cs ++ '\n' :: b) = l :: (ls ++ splitNl b) := by
        rw [ih, h, List.cons_append]
      rw [List.cons_append, splitNl_cons_of_ne c _ _ _ hc h2,
        splitNl_cons_of_ne c _ _ _ hc h, List.cons_append]

theorem splitNl_no_newline (a : List Char) (h : '\n' ∉ a) : splitNl a = [a] := by
  induction a with
  | nil => rfl
  | cons c cs ih =>
    have hc : c ≠ '\n' := fun e => h (by rw [← e]; exact List.mem_cons_self c cs)
    have hcs : '\n' ∉ cs := fun hm => h (List.mem_cons_of_mem _ hm)
    rw [splitNl_cons_of_ne c cs cs [] hc (ih hcs)]

theorem joinNl_cons_cons (l l2 : List Char) (ls : List (List Char)) :
    joinNl (l :: l2 :: ls) = l ++ '\n' :: joinNl (l2 :: ls) := rfl

theorem joinNl_splitNl (v : List Char) : joinNl (splitNl v) = v := by
  induction v with
  | nil => rfl
  | cons c cs ih =>
    obtain ⟨l, ls, h⟩ := splitNl_dest cs
    by_cases hc : c = '\n'
    · subst hc
      rw [splitNl_cons_nl, h, joinNl_cons_cons, ← h, ih, List.nil_append]
    · rw [splitNl_cons_of_ne c cs l ls hc h]
      rw [h] at ih
      cases ls with
      | nil =>
        have hl : l = cs := ih
        rw [show joinNl [c :: l] = c :: l from rfl, hl]
      | cons l2 ls2 =>
        rw [joinNl_cons_cons] at ih
        rw [joinNl_cons_cons, List.cons_append, ih]

theorem length_dropWhile_le (p : Char → Bool) (l : List Char) :
    (l.dropWhile p).length ≤ l.length := by
  induction l with
  | nil => simp
  | cons c cs ih =>
    by_cases h : p c = true
    · rw [List.dropWhile_cons_of_pos h]
      exact Nat.le_succ_of_le ih
    · rw [List.dropWhile_cons_of_neg h]

theorem trimChars_head (v : List Char) (hv : trimChars v = v) (c : Char) (cs : List Char)
    (hcons : v = c :: cs) : isWsC c = false := by
  by_contra hcon
  have hc : isWsC c = true := by
    cases h : isWsC c
    · exact absurd h hcon
    · rfl
  have h1 : (v.dropWhile isWsC).length ≤ cs.length := by
    rw [hcons, List.dropWhile_cons_of_pos hc]
    exact length_dropWhile_le _ _
  have h2 : (trimChars v).length ≤ (v.dropWhile isWsC).length := by
    unfold trimChars
    rw [List.length_reverse]
    exact le_trans (length_dropWhile_le _ _) (le_of_eq (List.length_reverse _))
  rw [hv] at h2
  have h3 : v.length = cs.length + 1 := by rw [hcons]; rfl
  omega

theorem isWsC_nl : isWsC '\n' = true := rfl

theorem trimChars_append_nl (v : List Char) :
    trimChars (v ++ ['\n']) = trimChars v := by
  unfold trimChars
  rw [List.dropWhile_append]
  by_cases h : (v.dropWhile isWsC).isEmpty = true
  · rw [if_pos h]
    have he : v.dropWhile isWsC = [] := by
      cases hv : v.dropWhile isWsC
      · rfl
      · rw [hv] at h; simp at h
    rw [he]
    rfl
  · rw [if_neg h, List.reverse_append,
      show (['\n'] : List Char).reverse = ['\n'] from rfl, List.singleton_append,
      List.dropWhile_cons_of_pos isWsC_nl]

theorem accumB_cons (c l : List Char) (ls : List (List Char)) :
    accumB c (l :: ls) = accumB (if c = [] then l else c ++ '\n' :: l) ls := rfl

theorem accumB_of_ne_nil (ls : List (List Char)) :
    ∀ c : List Char, c ≠ [] → accumB c ls = joinNl (c :: ls) := by
  induction ls with
  | nil => intro c _; rfl
  | cons l ls ih =>
    intro c hc
    rw [accumB_cons, if_neg hc, ih _ (by simp)]
    cases ls with
    | nil => rfl
    | cons l2 ls2 =>
      rw [joinNl_cons_cons, joinNl_cons_cons, joinNl_cons_cons]
      simp [List.append_assoc]

theorem accumB_splitNl (v : List Char) (hv : trimChars v = v) :
    accumB [] (splitNl v) = v := by
  cases hcv : v with
  | nil => rfl
  | cons c cs =>
    rw [hcv] at hv
    have hc : isWsC c = false := trimChars_head (c :: cs) hv c cs rfl
    have hcn : c ≠ '\n' := fun e => by rw [e] at hc; exact absurd hc (by decide)
    obtain ⟨l, ls, h⟩ := splitNl_dest cs
    rw [splitNl_cons_of_ne c cs l ls hcn h, accumB_cons, if_pos rfl,
      accumB_of_ne_nil ls (c :: l) (by simp),
      ← splitNl_cons_of_ne c cs l ls hcn h, joinNl_splitNl]

theorem runLines_cons (s : PState) (l : List Char) (ls : List (List Char)) :
    runLines s (l :: ls) = runLines (stepLine s l) ls := rfl

theorem runLines_append (s : PState) (xs ys : List (List Char)) :
    runLines s (xs ++ ys) = runLines (runLines s xs) ys := by
  unfold runLines
  exact List.foldl_append _ _ _ _

theorem stepLine_body (f : List (List Char × List Char)) (cf : Option (List Char))
    (cur l : List Char) (hl : headingCapture l = none) :
    stepLine ⟨f, cf, cur⟩ l = ⟨f, cf, if cur = [] then l else cur ++ '\n' :: l⟩ := by
  by_cases hcur : cur = [] <;> simp [stepLine, hl, hcur]

theorem runLines_body :
    ∀ (ls : List (List Char)) (f : List (List Char × List Char))
      (cf : Option (List Char)) (cur : List Char),
    (∀ l ∈ ls, headingCapture l = none) →
    runLines ⟨f, cf, cur⟩ ls = ⟨f, cf, accumB cur ls⟩ := by
  intro ls
  induction ls with
  | nil => intro f cf cur _; rfl
  | cons l ls ih =>
    intro f cf cur hls
    rw [runLines_cons, stepLine_body f cf cur l (hls l (List.mem_cons_self l ls)),
      ih f cf _ (fun x hx => hls x (List.mem_cons_of_mem l hx)), accumB_cons]

theorem insertKV_fresh :
    ∀ (f : List (List Char × List Char)) (k v : List Char),
    k ∉ f.map Prod.fst → insertKV f k v = f ++ [(k, v)] := by
  intro f k v
  induction f with
  | nil => intro _; rfl
  | cons kv0 rest ih =>
    intro h
    obtain ⟨k0, v0⟩ := kv0
    simp only [List.map_cons, List.mem_cons, not_or] at h
    obtain ⟨h1, h2⟩ := h
    simp only [insertKV]
    rw [if_neg (fun e => h1 e.symm), ih h2]
    rfl

theorem headingCapture_heading (k : List Char) :
    headingCapture ('#' :: ' ' :: k) = some k := rfl

theorem stepLine_heading_some (f : List (List Char × List Char)) (k0 cur hname : List Char) :
    stepLine ⟨f, some k0, cur⟩ ('#' :: ' ' :: hname) =
      ⟨insertKV f k0 (trimChars cur), some hname, []⟩ := rfl

theorem stepLine_heading_none (f : List (List Char × List Char)) (cur hname : List Char) :
    stepLine ⟨f, none, cur⟩ ('#' :: ' ' :: hname) = ⟨f, some hname, []⟩ := rfl

theorem serializeCore_acc (fs : List (List Char × List Char)) :
    ∀ acc : List Char,
    fs.foldl (fun md kv => md ++ serializeEntry kv.1 kv.2) acc = acc ++ serializeCore fs := by
  induction fs with
  | nil => intro acc; simp [serializeCore]
  | cons kv fs ih =>
    intro acc
    rw [List.foldl_cons, ih]
    conv_rhs => rw [serializeCore, List.foldl_cons, ih]
    simp [List.append_assoc]

theorem serializeCore_cons (k v : List Char) (fs : List (List Char × List Char)) :
    serializeCore ((k, v) :: fs) = serializeEntry k v ++ serializeCore fs := by
  rw [serializeCore, List.foldl_cons, serializeCore_acc]
  rfl

theorem entriesLines_cons (k v : List Char) (es : List (List Char × List Char)) :
    entriesLines ((k, v) :: es) = ('#' :: ' ' :: k) :: (splitNl v ++ entriesLines es) := rfl

theorem splitNl_serializeCore :
    ∀ es : List (List Char × List Char),
    (∀ kv ∈ es, '\n' ∉ kv.1) →
    splitNl (serializeCore es) = entriesLines es ++ [[]] := by
  intro es
  induction es with
  | nil => intro _; rfl
  | cons kv es ih =>
    intro hk
    obtain ⟨k, v⟩ := kv
    rw [serializeCore_cons]
    have hre : serializeEntry k v ++ serializeCore es
        = ('#' :: ' ' :: k) ++ '\n' :: (v ++ '\n' :: serializeCore es) := by
      simp [serializeEntry, List.append_assoc]
    rw [hre, splitNl_append]
    have hk1 : '\n' ∉ ('#' :: ' ' :: k) := by
      intro hm
      simp only [List.mem_cons] at hm
      rcases hm with h | h | h
      · exact absurd h (by decide)
      · exact absurd h (by decide)
      · exact hk (k, v) (List.mem_cons_self _ _) h
    rw [splitNl_no_newline _ hk1, splitNl_append,
      ih (fun x hx => hk x (List.mem_cons_of_mem _ hx)), entriesLines_cons]
    simp [List.append_assoc]

theorem runEntries :
    ∀ (es : List (List Char × List Char)) (f : List (List Char × List Char))
      (k cur : List Char),
    (f.map Prod.fst ++ k :: es.map Prod.fst).Nodup →
    (∀ kv ∈ es, trimChars kv.2 = kv.2 ∧ ∀ l ∈ splitNl kv.2, headingCapture l = none) →
    finishP (runLines ⟨f, some k, cur⟩ (entriesLines es ++ [[]])) =
      f ++ (k, trimChars cur) :: es := by
  intro es
  induction es with
  | nil =>
    intro f k cur hnd _
    have hkf : k ∉ f.map Prod.fst := by
      rcases List.nodup_append.mp hnd with ⟨_, _, hdisj⟩
      exact fun hm => hdisj hm (List.mem_cons_self k _)
    rw [show runLines ⟨f, some k, cur⟩ (entriesLines [] ++ [[]])
        = stepLine ⟨f, some k, cur⟩ [] from rfl,
      stepLine_body f (some k) cur [] rfl]
    show insertKV f k (trimChars (if cur = [] then [] else cur ++ '\n' :: [])) = _
    have htrim : trimChars (if cur = [] then [] else cur ++ '\n' :: []) = trimChars cur := by
      by_cases hcur : cur = []
      · rw [if_pos hcur, hcur]
      · rw [if_neg hcur]
        exact trimChars_append_nl cur
    rw [htrim, insertKV_fresh f k _ hkf]
  | cons kv es ih =>
    intro f k cur hnd hcon
    obtain ⟨k2, v2⟩ := kv
    have hkf : k ∉ f.map Prod.fst := by
      rcases List.nodup_append.mp hnd with ⟨_, _, hdisj⟩
      exact fun hm => hdisj hm (List.mem_cons_self k _)
    have hlines : entriesLines ((k2, v2) :: es) ++ [[]] =
        ('#' :: ' ' :: k2) :: (splitNl v2 ++ (entriesLines es ++ [[]])) := by
      rw [entriesLines_cons, List.cons_append, List.append_assoc]
    rw [hlines, runLines_cons, stepLine_heading_some, runLines_append]
    have hv2 := hcon (k2, v2) (List.mem_cons_self _ _)
    rw [runLines_body (splitNl v2) _ _ [] hv2.2, accumB_splitNl v2 hv2.1,
      insertKV_fresh f k _ hkf]
    have hnd' : ((f ++ [(k, trimChars cur)]).map Prod.fst ++ k2 :: es.map Prod.fst).Nodup := by
      have e : (f ++ [(k, trimChars cur)]).map Prod.fst ++ k2 :: es.map Prod.fst
          = f.map Prod.fst ++ k :: k2 :: es.map Prod.fst := by
        rw [List.map_append, List.append_assoc]
        rfl
      rw [e]
      exact hnd
    rw [ih (f ++ [(k, trimChars cur)]) k2 v2 hnd'
      (fun x hx => hcon x (List.mem_cons_of_mem _ hx)), hv2.1, List.append_assoc]
    rfl

theorem parse_serialize_core (es : List (List Char × List Char))
    (hk : ∀ kv ∈ es, '\n' ∉ kv.1)
    (hnd : (es.map Prod.fst).Nodup)
    (hcon : ∀ kv ∈ es, trimChars kv.2 = kv.2 ∧ ∀ l ∈ splitNl kv.2, headingCapture l = none) :
    parseFieldsCore (serializeCore es) = es := by
  cases es with
  | nil => rfl
  | cons kv es2 =>
    obtain ⟨k, v⟩ := kv
    unfold parseFieldsCore
    rw [splitNl_serializeCore _ hk]
    have hlines : entriesLines ((k, v) :: es2) ++ [[]] =
        ('#' :: ' ' :: k) :: (splitNl v ++ (entriesLines es2 ++ [[]])) := by
      rw [entriesLines_cons, List.cons_append, List.append_assoc]
    rw [hlines, runLines_cons, stepLine_heading_none, runLines_append]
    have hv := hcon (k, v) (List.mem_cons_self _ _)
    rw [runLines_body (splitNl v) _ _ [] hv.2, accumB_splitNl v hv.1]
    have hnd' : (([] : List (List Char × List Char)).map Prod.fst ++ k :: es2.map Prod.fst).Nodup := by
      exact hnd
    rw [runEntries es2 [] k v hnd' (fun x hx => hcon x (List.mem_cons_of_mem _ hx)), hv.1]
    rfl

/-- C6: the round-trip claim's preconditions are insufficient — the heading
regex is unanchored, so a body line merely CONTAINING `"# "` is treated as a
heading (first conjunct block: body `"a # b"` does not start with `"# "` yet
is reparsed as a heading line, corrupting the mapping); parsing trims bodies,
so a body with an untrimmed edge does not survive (body `" x"` comes back as
`"x"`); and a key containing a newline breaks the line discipline. -/
theorem c6_counterexample :
    headingCapture ("a # b".data) = some ("b".data) ∧
    ("a # b".data.take 2 ≠ ['#', ' ']) ∧
    lookupS (parse_note_into_fields (get_note_md [("Front", "a # b")])) "Front" ≠
      some "a # b" ∧
    lookupS (parse_note_into_fields (get_note_md [("Front", " x")])) "Front" ≠
      some " x" ∧
    lookupS (parse_note_into_fields (get_note_md [("a\nb", "c")])) "a\nb" ≠
      some "c" := by
  decide

/-- C6 (amended): for every Fields mapping whose keys are pairwise distinct,
non-empty and newline-free, and whose bodies are trim-stable and contain no
line in which `"# "` occurs anywhere, parsing the serialization reconstructs
the original mapping exactly. -/
theorem c6_round_trip_amended (fields : List (String × String))
    (hnd : (fields.map Prod.fst).Nodup)
    (hcon : ∀ kv ∈ fields, kv.1 ≠ "" ∧ '\n' ∉ kv.1.data ∧
        trimChars kv.2.data = kv.2.data ∧
        ∀ l ∈ splitNl kv.2.data, headingCapture l = none) :
    parse_note_into_fields (get_note_md fields) = fields := by
  unfold parse_note_into_fields get_note_md
  rw [show (String.mk (serializeCore (fields.map fun kv => (kv.1.data, kv.2.data)))).data
      = serializeCore (fields.map fun kv => (kv.1.data, kv.2.data)) from rfl]
  rw [parse_serialize_core (fields.map fun kv => (kv.1.data, kv.2.data))
    (by
      intro kv hm
      rw [List.mem_map] at hm
      obtain ⟨kv0, hkv0, rfl⟩ := hm
      exact (hcon kv0 hkv0).2.1)
    (by
      have e : (fields.map fun kv => (kv.1.data, kv.2.data)).map Prod.fst
          = (fields.map Prod.fst).map String.data := by
        rw [List.map_map, List.map_map]
        rfl
      rw [e]
      exact hnd.map (fun a b h => String.ext h)
    )
    (by
      intro kv hm
      rw [List.mem_map] at hm
      obtain ⟨kv0, hkv0, rfl⟩ := hm
      exact ⟨(hcon kv0 hkv0).2.2.1, (hcon kv0 hkv0).2.2.2⟩)]
  rw [List.map_map]
  exact List.map_congr_left (fun a _ => rfl) |>.trans (List.map_id fields)

/-- C6 witness: the spec's concrete mapping round-trips (and satisfies the
amended preconditions). -/
theorem c6_witness :
    (fieldsEx.map Prod.fst).Nodup ∧
    parse_note_into_fields (get_note_md fieldsEx) = fieldsEx := by
  constructor
  · decide
  · exact c6_round_trip_amended fieldsEx (by decide) (by decide)

/-- C7 witness: the single card enumerated from a directory containing
`abc_basic.md` carries all the hardcoded defaults. -/
theorem c7_witness :
    (mkDueCard "d" "abc").card_num = 1 ∧ (mkDueCard "d" "abc").due = none ∧
    (mkDueCard "d" "abc").ease = 200 ∧ (mkDueCard "d" "abc").interval = 100 ∧
    (mkDueCard "d" "abc").state = CardState.New ∧ (mkDueCard "d" "abc").steps = 0 :=
  c7_due_defaults.1 "d" [{ name := "abc_basic.md", isFile := true }] 0
    (mkDueCard "d" "abc") (by decide)
